import Mathlib

/-!
Verification of the SVM wrapper (src/cameraGeom/geom/svm_wrapper.cpp).

The C++ code is shallowly embedded over `ℚ` (standing in for `double`).
External collaborators (the OpenCV SVM engine, the Levenberg-Marquardt
optimizer, file I/O, the thread pool) are out of scope per the spec and
are abstracted as function parameters; everything else is translated
directly from the source.

Conventions used throughout:
* a feature vector (`cv::Mat` row of floats) is a `List ℚ`, indexed with
  `List.getD` (the C++ code always indexes in bounds);
* `CHECK(cond, msg)` macros (util library, not under src/) abort fatally
  when `cond` holds; fallible functions therefore return `Option`/`Except`,
  with `none`/`error` for the fatal path;
* `CHECKPROBABILITY(x)` aborts unless `0 ≤ x ≤ 1`;
* `exp` is transcendental, hence not representable exactly over `ℚ`; where
  the code computes `exp(-x)` the embedding takes the (always positive)
  value as an explicit argument `e`, and theorems assume `0 < e`.
-/

set_option autoImplicit false

/-- A feature vector: ordered fixed-length sequence of real values
(`cv::Mat` row, `CV_32FC1`). -/
abbrev Feature := List ℚ

/-- The constant `HUGE` used by the source as an "infinite" initial value. -/
def HUGEQ : ℚ := 10 ^ 100

/-- `svmClass` from the source: class of a raw score is `score > 0`. -/
def svmClass (fScore : ℚ) : Bool := fScore > 0

/-- The two labelled collections of training features:
`aaadFeatures[0]` (negative) and `aaadFeatures[1]` (positive). -/
structure CLabelledFeatures where
  neg : List Feature
  pos : List Feature
deriving DecidableEq

/-- `CBoosterState`: a single-feature threshold rule
`(nFeatureIdx, dThreshold, bRejectAbove)`. The default constructor fills
`(-1, HUGE, false)`. -/
structure CBoosterState where
  nFeatureIdx : Int
  dThreshold : ℚ
  bRejectAbove : Bool
deriving DecidableEq

/-- The default-constructed `CBoosterState()`: `(-1, HUGE, false)`. -/
def defaultBoosterState : CBoosterState := ⟨-1, HUGEQ, false⟩

/-- `CBoostedFilter::keepPotentialCandidate(double)`: keep a value iff it is
on the non-reject side of the threshold. -/
def keepPotentialCandidate (state : CBoosterState) (dFeatureVal : ℚ) : Bool :=
  if state.bRejectAbove then dFeatureVal < state.dThreshold
  else dFeatureVal > state.dThreshold

/-- `CBoostedFilter::keepPotentialCandidate(feature)`: extract the value at
the filter's feature index and test it. -/
def keepFeature (state : CBoosterState) (feature : Feature) : Bool :=
  keepPotentialCandidate state (feature.getD state.nFeatureIdx.toNat 0)

/-- `CBoostedFilters::keepPotentialCandidate`: a candidate is kept iff every
filter of the cascade keeps it (first rejection wins). -/
def keepAllFilters (aBoosterStates : List CBoosterState) (feature : Feature) : Bool :=
  aBoosterStates.all (fun st => keepFeature st feature)

/-- `CFeatureSubsetSelecter`: a chosen subset of feature indices plus
per-index normalising mean and scale coefficients. -/
structure CFeatureSubsetSelecter where
  anFeatureIdxSubset : List Nat
  adNormalisingMean : List ℚ
  adNormalisingScale : List ℚ
deriving DecidableEq

/-- `CFeatureSubsetSelecter::selectAndNormalise`: project the full vector
onto the subset in subset order, each entry being
`scale[idx] * (value(idx) - mean[idx])`. -/
def selectAndNormalise (sel : CFeatureSubsetSelecter) (feature : Feature) : List ℚ :=
  sel.anFeatureIdxSubset.map
    (fun nIdx => sel.adNormalisingScale.getD nIdx 0 * (feature.getD nIdx 0 - sel.adNormalisingMean.getD nIdx 0))

/-- `CSVMClassifier::classify`. The SVM engine's raw prediction
(`svm.predict(feature, true)`) is the out-of-scope black box `svmPredict`.
Branch order as in the source: cascade rejection returns the fixed `-1`
before the engine can be consulted; `signCorrection == 0` returns the fixed
`1` before the engine can be consulted; otherwise the raw prediction on the
normalised subset, minus the boundary, times the sign correction. -/
def classify (aBoosterStates : List CBoosterState) (sel : CFeatureSubsetSelecter)
    (dSignCorrection dClassificationBoundary : ℚ) (svmPredict : List ℚ → ℚ)
    (feature : Feature) : ℚ :=
  if keepAllFilters aBoosterStates feature = false then -1
  else if dSignCorrection = 0 then 1
  else dSignCorrection * (svmPredict (selectAndNormalise sel feature) - dClassificationBoundary)

/-- `CSigmoidParams`: sigmoid calibration parameters. -/
structure CSigmoidParams where
  dThreshLo : ℚ
  dThreshHi : ℚ
  dShift : ℚ
  dScale : ℚ
deriving DecidableEq

/-- `CSigmoidParams::validate`: `CHECKPROBABILITY(dThreshLo)`,
`CHECKPROBABILITY(dThreshHi)`, `CHECK(dThreshLo >= dThreshHi)`,
`CHECK(dScale <= 0)`; returns whether every check passes. -/
def sigmoidValidate (p : CSigmoidParams) : Bool :=
  decide (0 ≤ p.dThreshLo ∧ p.dThreshLo ≤ 1 ∧ 0 ≤ p.dThreshHi ∧ p.dThreshHi ≤ 1
    ∧ p.dThreshLo < p.dThreshHi ∧ 0 < p.dScale)

/-- `CSigmoidParams::logisticSigmoid` as a function of `e = exp(-x)`:
`1 / (1 + exp(-x))`. -/
def logisticSigmoidE (e : ℚ) : ℚ := 1 / (1 + e)

/-- `CSigmoidParams::prob` as a function of `e = exp(-dScale*(resp-dShift))`:
`dThreshLo + (dThreshHi - dThreshLo) * logisticSigmoid(...)`. -/
def sigmoidProb (p : CSigmoidParams) (e : ℚ) : ℚ :=
  p.dThreshLo + (p.dThreshHi - p.dThreshLo) * logisticSigmoidE e

/-- `CSVMClassifier::probability`: validates the sigmoid parameters first
(fatal `none` when `validate` fails), then maps the classification score
through the sigmoid, and finally `CHECKPROBABILITY(dProb)` (fatal `none`
when the result is outside `[0,1]`). The classification score enters only
through `e = exp(-dScale*(score-dShift))`. -/
def probability (p : CSigmoidParams) (e : ℚ) : Option ℚ :=
  if sigmoidValidate p then
    if 0 ≤ sigmoidProb p e ∧ sigmoidProb p e ≤ 1 then some (sigmoidProb p e) else none
  else none

/-- The hardcoded flag in `CSVMTraining::~CSVMTraining`:
`const bool bUseBoosting = false;`. -/
def bUseBoosting : Bool := false

/-!
Scoring functions (`CSVMTraining::computeTotalSuccessRate`,
`CSVMTraining::computeBSR`). The class-weight matrix `pClassWeights` holds
one weight per class (negative class weight at row 0, positive at row 1);
the code always takes `fabs` of the looked-up weight. The per-example loop
over `labels.rows`/`test_labels.rows` (same row count) is embedded as a walk
over `labels.zip test_labels`.
-/

/-- Weight of an example with ground-truth class `bGTClass`:
`fabs(cvmGet(pClassWeights, bGTClass, 0))`. -/
def weightAbs (wNeg wPos : ℚ) (bGTClass : Bool) : ℚ := |if bGTClass then wPos else wNeg|

/-- Contribution of one `(label, test_label)` row to `dTotalScore`. -/
def pairWeight (wNeg wPos : ℚ) (row : ℚ × ℚ) : ℚ := weightAbs wNeg wPos (svmClass row.1)

/-- Contribution of one `(label, test_label)` row to `dTotalErrorScore`:
the example's weight when the predicted class differs from ground truth. -/
def pairErrorScore (wNeg wPos : ℚ) (row : ℚ × ℚ) : ℚ :=
  if svmClass row.1 ≠ svmClass row.2 then pairWeight wNeg wPos row else 0

/-- `dTotalScore` accumulated by `computeTotalSuccessRate`. -/
def dTotalScore (labels test_labels : List ℚ) (wNeg wPos : ℚ) : ℚ :=
  ((labels.zip test_labels).map (pairWeight wNeg wPos)).sum

/-- `dTotalErrorScore` accumulated by `computeTotalSuccessRate`. -/
def dTotalErrorScore (labels test_labels : List ℚ) (wNeg wPos : ℚ) : ℚ :=
  ((labels.zip test_labels).map (pairErrorScore wNeg wPos)).sum

/-- `CSVMTraining::computeTotalSuccessRate`: returns the pair
`(dTotalSuccessRate, dSignCorrection)` (the sign correction is an output
parameter in the source). When the weighted error is below half the total
weight the sign is `1` and the rate is the weighted success fraction;
otherwise the sign is flipped to `-1` and the rate is the weighted error
fraction. -/
def computeTotalSuccessRate (labels test_labels : List ℚ) (wNeg wPos : ℚ) : ℚ × ℚ :=
  if dTotalErrorScore labels test_labels wNeg wPos < 1/2 * dTotalScore labels test_labels wNeg wPos then
    ((dTotalScore labels test_labels wNeg wPos - dTotalErrorScore labels test_labels wNeg wPos) /
      dTotalScore labels test_labels wNeg wPos, 1)
  else
    (dTotalErrorScore labels test_labels wNeg wPos / dTotalScore labels test_labels wNeg wPos, -1)

/-- Number of validation examples of ground-truth class `bLabel`
(`dExamples` in `computeBSR`). -/
def classExamples (labels test_labels : List ℚ) (bLabel : Bool) : ℚ :=
  ((labels.zip test_labels).map
    (fun row => if svmClass row.1 = bLabel then (1:ℚ) else 0)).sum

/-- Number of misclassified validation examples of ground-truth class
`bLabel` (`dErrors` in `computeBSR`); prediction uses the sign-corrected
score `dSignCorrection * test_label`. -/
def classErrors (labels test_labels : List ℚ) (dSignCorrection : ℚ) (bLabel : Bool) : ℚ :=
  ((labels.zip test_labels).map
    (fun row => if svmClass row.1 = bLabel ∧ svmClass (dSignCorrection * row.2) ≠ bLabel
      then (1:ℚ) else 0)).sum

/-- Per-class success rate `(dExamples - dErrors) / dExamples` in
`computeBSR`. -/
def classSuccessRate (labels test_labels : List ℚ) (dSignCorrection : ℚ) (bLabel : Bool) : ℚ :=
  (classExamples labels test_labels bLabel - classErrors labels test_labels dSignCorrection bLabel) /
    classExamples labels test_labels bLabel

/-- `CSVMTraining::computeBSR`: the 2-class balanced success rate, summing
`0.5 * dClassSuccessRate` over `bLabel = 0, 1`. -/
def computeBSR (labels test_labels : List ℚ) (dSignCorrection : ℚ) : ℚ :=
  1/2 * classSuccessRate labels test_labels dSignCorrection false +
    1/2 * classSuccessRate labels test_labels dSignCorrection true

/-!
Cross-validation scoring (`CSVMTraining::propCorrect`,
`CTrainValidateFeatureSet::trainAndValidate`). The trained `cv::SVM` engine
is an external black box; its raw prediction may throw a `cv::Exception`,
modelled as `Except Unit ℚ`.
-/

/-- Abstraction of a trained `cv::SVM` engine: only its fallible raw
prediction is visible to the wrapper. -/
structure TrainedSVM where
  predictRaw : Feature → Except Unit ℚ

/-- The prediction loop inside `propCorrect`'s try block: one raw prediction
per validation row; the first engine exception aborts the whole loop. -/
def predictAll (predict : Feature → Except Unit ℚ) : List Feature → Except Unit (List ℚ)
  | [] => Except.ok []
  | f :: rest =>
    match predict f with
    | Except.error e => Except.error e
    | Except.ok v =>
      match predictAll predict rest with
      | Except.error e => Except.error e
      | Except.ok vs => Except.ok (v :: vs)

/-- `CSVMTraining::propCorrect`, on the `bClassificationError = false` branch
the program always takes: fills `test_labels` with
`svm.predict(row, true) - dBoundary`; when the engine throws, catches the
exception and returns score `0`; otherwise returns the total weighted
success rate of the validation set. -/
def propCorrect (predict : Feature → Except Unit ℚ) (features : List Feature) (labels : List ℚ)
    (wNeg wPos dBoundary : ℚ) : ℚ :=
  match predictAll predict features with
  | Except.error _ => 0
  | Except.ok responses =>
    (computeTotalSuccessRate labels (responses.map (fun r => r - dBoundary)) wNeg wPos).1

/-- `CTrainValidateFeatureSet::trainAndValidate` / `validate`: the engine is
trained on the fold's training partition (black box, yielding `svm`) and the
fold's validation partition is scored through `propCorrect` with boundary
`0`. -/
def trainAndValidate (svm : TrainedSVM) (validateFeatures : List Feature)
    (validateLabels : List ℚ) (wNeg wPos : ℚ) : ℚ :=
  propCorrect svm.predictRaw validateFeatures validateLabels wNeg wPos 0

/-!
Boundary interpolation (`CSavedSVMState::interpPrecisionBoundary`). The
lookup `TPRLookup` is a pair of parallel vectors (boundaries, precisions),
walked in order; the embedding walks `boundaries.zip precisions`. The
`zero(..)` approximate-zero test of the line-fit check is exact over `ℚ`.
-/

/-- Running state of the closest-two search in `interpPrecisionBoundary`:
`(dBoundary1, dP1)` the nearest sample so far, `(dBoundary2, dP2)` the
second nearest; both precisions start at `HUGE`. -/
structure TwoNearest where
  dBoundary1 : ℚ
  dP1 : ℚ
  dBoundary2 : ℚ
  dP2 : ℚ
deriving DecidableEq

/-- One step of the closest-two loop body. -/
def updateNearest (dTargetPrecision : ℚ) (s : TwoNearest) (row : ℚ × ℚ) : TwoNearest :=
  if |row.2 - dTargetPrecision| < |s.dP1 - dTargetPrecision| then
    ⟨row.1, row.2, s.dBoundary1, s.dP1⟩
  else if |row.2 - dTargetPrecision| < |s.dP2 - dTargetPrecision| then
    ⟨s.dBoundary1, s.dP1, row.1, row.2⟩
  else s

/-- The closest-two loop of `interpPrecisionBoundary`. -/
def selectNearestTwo (dTargetPrecision : ℚ) (boundaries precisions : List ℚ) : TwoNearest :=
  (boundaries.zip precisions).foldl (updateNearest dTargetPrecision) ⟨0, HUGEQ, 0, HUGEQ⟩

/-- Slope `m = (dBoundary2 - dBoundary1) / (dP2 - dP1)` of the straight-line
fit through the two nearest samples. -/
def interpSlope (dTargetPrecision : ℚ) (boundaries precisions : List ℚ) : ℚ :=
  ((selectNearestTwo dTargetPrecision boundaries precisions).dBoundary2 -
      (selectNearestTwo dTargetPrecision boundaries precisions).dBoundary1) /
    ((selectNearestTwo dTargetPrecision boundaries precisions).dP2 -
      (selectNearestTwo dTargetPrecision boundaries precisions).dP1)

/-- Intercept `c = dBoundary1 - m * dP1` of the straight-line fit. -/
def interpIntercept (dTargetPrecision : ℚ) (boundaries precisions : List ℚ) : ℚ :=
  (selectNearestTwo dTargetPrecision boundaries precisions).dBoundary1 -
    interpSlope dTargetPrecision boundaries precisions *
      (selectNearestTwo dTargetPrecision boundaries precisions).dP1

/-- `CSavedSVMState::interpPrecisionBoundary`: select the two stored samples
whose precisions are nearest the target, fit the line through them, fail
fatally (`CHECK(!zero(...))`, here `none`) when the fit is inconsistent, and
return the line evaluated at the target precision. -/
def interpPrecisionBoundary (dTargetPrecision : ℚ) (boundaries precisions : List ℚ) : Option ℚ :=
  if interpIntercept dTargetPrecision boundaries precisions -
      ((selectNearestTwo dTargetPrecision boundaries precisions).dBoundary2 -
        interpSlope dTargetPrecision boundaries precisions *
          (selectNearestTwo dTargetPrecision boundaries precisions).dP2) = 0 then
    some (dTargetPrecision * interpSlope dTargetPrecision boundaries precisions +
      interpIntercept dTargetPrecision boundaries precisions)
  else none

/-!
Boosting-cascade construction (`CSVMTraining::findBoosterState`,
`findBestBoosterState`, `findBoosterStates`). `std::sort` is embedded as an
insertion sort (the claims do not depend on the order of equal keys); the
unbounded `for(;;)` loop of `findBoosterStates` takes a fuel argument, with
fuel exhaustion mapped to the fatal path.
-/

/-- Insert one `(value, label)` pair into an already-sorted run. -/
def insertSorted (lt : (ℚ × Bool) → (ℚ × Bool) → Bool) (x : ℚ × Bool) :
    List (ℚ × Bool) → List (ℚ × Bool)
  | [] => [x]
  | y :: ys => if lt x y then x :: y :: ys else y :: insertSorted lt x ys

/-- Sorting of the per-feature `(value, label)` list. -/
def sortFeatures (lt : (ℚ × Bool) → (ℚ × Bool) → Bool) :
    List (ℚ × Bool) → List (ℚ × Bool)
  | [] => []
  | x :: xs => insertSorted lt x (sortFeatures lt xs)

/-- `CSVMTraining::sortByOneFeature_asc`. -/
def sortByOneFeature_asc (d1 d2 : ℚ × Bool) : Bool := d1.1 < d2.1

/-- `CSVMTraining::sortByOneFeature_desc`. -/
def sortByOneFeature_desc (d1 d2 : ℚ × Bool) : Bool := d1.1 > d2.1

/-- The walk over the sorted features in `findBoosterState`: accumulates the
running positive and negative counts, and records the midpoint boundary and
`dNeg` whenever `dPos < 0.0005 * dNeg` and the next value differs (the loop
runs to the second-to-last element, looking one ahead). Arguments:
remaining sorted list, `dPos`, `dNeg`, `dBestThreshPosBelow`,
`dNumRemovedBelow`; returns the final `(dBestThreshPosBelow,
dNumRemovedBelow)`. -/
def scanBooster : List (ℚ × Bool) → ℚ → ℚ → ℚ → ℚ → ℚ × ℚ
  | [], _, _, dBestThreshPosBelow, dNumRemovedBelow => (dBestThreshPosBelow, dNumRemovedBelow)
  | [_], _, _, dBestThreshPosBelow, dNumRemovedBelow => (dBestThreshPosBelow, dNumRemovedBelow)
  | (v1, l1) :: (v2, l2) :: rest, dPos, dNeg, dBestThreshPosBelow, dNumRemovedBelow =>
    if (if l1 then dPos + 1 else dPos) < 1/2000 * (if l1 then dNeg else dNeg + 1) ∧ v1 ≠ v2 then
      scanBooster ((v2, l2) :: rest) (if l1 then dPos + 1 else dPos)
        (if l1 then dNeg else dNeg + 1) ((v1 + v2) / 2) (if l1 then dNeg else dNeg + 1)
    else
      scanBooster ((v2, l2) :: rest) (if l1 then dPos + 1 else dPos)
        (if l1 then dNeg else dNeg + 1) dBestThreshPosBelow dNumRemovedBelow

/-- The per-feature `(value, label)` list of `findBoosterState`, sorted in
the polarity's rejection direction (negatives first as `bLabel` runs `0, 1`). -/
def boosterSortedVals (data : CLabelledFeatures) (nIdx : ℕ) (bRejectAbove : Bool) :
    List (ℚ × Bool) :=
  sortFeatures (if bRejectAbove then sortByOneFeature_desc else sortByOneFeature_asc)
    (data.neg.map (fun f => (f.getD nIdx 0, false)) ++
      data.pos.map (fun f => (f.getD nIdx 0, true)))

/-- The `(dBestThreshPosBelow, dNumRemovedBelow)` pair computed by
`findBoosterState`'s walk, from the initial values `(-HUGE, -1)`. -/
def boosterScan (data : CLabelledFeatures) (nIdx : ℕ) (bRejectAbove : Bool) : ℚ × ℚ :=
  scanBooster (boosterSortedVals data nIdx bRejectAbove) 0 0 (-HUGEQ) (-1)

/-- `dNumRemovedBelow` of `findBoosterState`. -/
def dNumRemovedBelow (data : CLabelledFeatures) (nIdx : ℕ) (bRejectAbove : Bool) : ℚ :=
  (boosterScan data nIdx bRejectAbove).2

/-- `dPropOfNegativeExamplesRemoved` of `findBoosterState`:
`dNumRemovedBelow / aaadFeatures[false].size()`. -/
def dPropOfNegativeExamplesRemoved (data : CLabelledFeatures) (nIdx : ℕ)
    (bRejectAbove : Bool) : ℚ :=
  dNumRemovedBelow data nIdx bRejectAbove / (data.neg.length : ℚ)

/-- `CSVMTraining::findBoosterState`: the candidate is rejected (score `0`,
default state with feature index `-1`) unless it removes at least the
fraction `dMinimumPower = 0.1` of the current negatives and at least `150`
negatives absolutely. -/
def findBoosterState (data : CLabelledFeatures) (nIdx : ℕ) (bRejectAbove : Bool) :
    ℚ × CBoosterState :=
  if dPropOfNegativeExamplesRemoved data nIdx bRejectAbove < 1/10 ∨
      dNumRemovedBelow data nIdx bRejectAbove < 150 then
    (0, defaultBoosterState)
  else
    (dPropOfNegativeExamplesRemoved data nIdx bRejectAbove,
      ⟨(nIdx : Int), (boosterScan data nIdx bRejectAbove).1, bRejectAbove⟩)

/-- `aaadFeatures[false][0].cols`: the feature dimensionality. -/
def featureDims (data : CLabelledFeatures) : ℕ := (data.neg.headD []).length

/-- The candidates scanned by `findBestBoosterState`: `nRejectAbove = 0, 1`
outer, feature index inner. -/
def boosterCandidates (data : CLabelledFeatures) : List (ℚ × CBoosterState) :=
  (List.range (featureDims data)).map (fun nIdx => findBoosterState data nIdx false) ++
    (List.range (featureDims data)).map (fun nIdx => findBoosterState data nIdx true)

/-- `CSVMTraining::findBestBoosterState`: keep the candidate removing the
largest proportion of negatives (strict `>` against the running best, which
starts at `(0, CBoosterState())`). -/
def findBestBoosterState (data : CLabelledFeatures) : ℚ × CBoosterState :=
  (boosterCandidates data).foldl
    (fun best cand => if cand.1 > best.1 then cand else best) (0, defaultBoosterState)

/-- One filtering pass of `findBoosterStates`: keep, in both label sets,
only the examples the new filter keeps. -/
def applyBoosterFilter (st : CBoosterState) (data : CLabelledFeatures) : CLabelledFeatures :=
  ⟨data.neg.filter (fun f => keepFeature st f), data.pos.filter (fun f => keepFeature st f)⟩

/-- `CSVMTraining::findBoosterStates`: repeatedly find the best booster
state; stop (returning the states found so far and the filtered data) when
its feature index is negative; otherwise filter both label sets, abort
fatally (`CHECK_P`, here `error`) unless the negative count strictly
decreased, and continue. The unbounded `for(;;)` is given fuel; running out
of fuel is the fatal path. -/
def findBoosterStatesAux :
    ℕ → CLabelledFeatures → Except String (List CBoosterState × CLabelledFeatures)
  | 0, _ => Except.error "out of fuel"
  | fuel + 1, data =>
    if (findBestBoosterState data).2.nFeatureIdx < 0 then Except.ok ([], data)
    else
      if (applyBoosterFilter (findBestBoosterState data).2 data).neg.length ≥
          data.neg.length then
        Except.error "Boosting failed"
      else
        match findBoosterStatesAux fuel (applyBoosterFilter (findBestBoosterState data).2 data) with
        | Except.error e => Except.error e
        | Except.ok (rest, finalData) =>
          Except.ok ((findBestBoosterState data).2 :: rest, finalData)

/-- The chain property "each applied stage strictly decreases the negative
count", read along the list of applied booster states. -/
def negStrictlyDecreasingAlong : CLabelledFeatures → List CBoosterState → Prop
  | _, [] => True
  | data, st :: rest =>
    (applyBoosterFilter st data).neg.length < data.neg.length ∧
      negStrictlyDecreasingAlong (applyBoosterFilter st data) rest

/-- The chain property "no applied stage ever increases the positive
count", read along the list of applied booster states. -/
def posNonIncreasingAlong : CLabelledFeatures → List CBoosterState → Prop
  | _, [] => True
  | data, st :: rest =>
    (applyBoosterFilter st data).pos.length ≤ data.pos.length ∧
      posNonIncreasingAlong (applyBoosterFilter st data) rest

/-!
Feature normalisation (`CFeatureSubsetSelecter::findNormalisingCoeffs`).
-/

/-- Arithmetic mean of a list of values. -/
def listMean (adVals : List ℚ) : ℚ := adVals.sum / (adVals.length : ℚ)

/-- Population variance of a list of values. -/
def listVariance (adVals : List ℚ) : ℚ :=
  ((adVals.map (fun v => (v - listMean adVals) ^ 2)).sum) / (adVals.length : ℚ)

/-- Modelled from the spec: `meanSD` (util/vectorUtil.h, not under src/)
computes the arithmetic mean and the standard deviation of a list of
values. The square root is transcendental over `ℚ` and is taken as an
explicit parameter `sqrtFn`. -/
def meanSD (sqrtFn : ℚ → ℚ) (adVals : List ℚ) : ℚ × ℚ :=
  (listMean adVals, sqrtFn (listVariance adVals))

/-- The value list the per-feature `findNormalisingCoeffs` accumulates:
feature `nFeature` of every example of both label classes, negatives first
(`bLabel` runs `0, 1`). -/
def featureColumn (data : CLabelledFeatures) (nFeature : ℕ) : List ℚ :=
  data.neg.map (fun f => f.getD nFeature 0) ++ data.pos.map (fun f => f.getD nFeature 0)

/-- The per-feature `CFeatureSubsetSelecter::findNormalisingCoeffs`: mean of
the combined column, and `dScale = (dSD > 0) ? 1.0/dSD : 1`. -/
def findNormalisingCoeffsAt (sqrtFn : ℚ → ℚ) (data : CLabelledFeatures) (nFeature : ℕ) :
    ℚ × ℚ :=
  ((meanSD sqrtFn (featureColumn data nFeature)).1,
    if (meanSD sqrtFn (featureColumn data nFeature)).2 > 0 then
      1 / (meanSD sqrtFn (featureColumn data nFeature)).2
    else 1)

/-- The whole-vector `CFeatureSubsetSelecter::findNormalisingCoeffs`: the
mean and scale coefficient arrays over every feature index (the caller then
asserts `CHECK(scale == 0)` and `CHECKBADNUM(scale)`; the scale theorem
below shows these always pass). -/
def findNormalisingCoeffs (sqrtFn : ℚ → ℚ) (data : CLabelledFeatures) : List ℚ × List ℚ :=
  ((List.range (featureDims data)).map (fun i => (findNormalisingCoeffsAt sqrtFn data i).1),
    (List.range (featureDims data)).map (fun i => (findNormalisingCoeffsAt sqrtFn data i).2))

/-!
The training pipeline's persistence step (`CSVMTraining::~CSVMTraining` and
the save constructor of `CSavedSVMState`). Only the booster-state list
reaching persistence is modelled: with fewer than 20 examples in either
class training aborts with no persisted state (`none`); otherwise the
persisted cascade is `findBoosterStates()` when `bUseBoosting` holds and
the empty cascade otherwise.
-/

/-- The booster-state list persisted by `CSVMTraining::~CSVMTraining`,
`none` when training aborts before persistence. -/
def destructorSavedBoosterStates (fuel : ℕ) (data : CLabelledFeatures) :
    Option (List CBoosterState) :=
  if data.pos.length < 20 ∨ data.neg.length < 20 then none
  else if bUseBoosting then
    match findBoosterStatesAux fuel data with
    | Except.ok (bs, _) => some bs
    | Except.error _ => none
  else some []

lemma pairWeight_nonneg (wNeg wPos : ℚ) (row : ℚ × ℚ) : 0 ≤ pairWeight wNeg wPos row :=
  abs_nonneg _

lemma pairWeight_pos {wNeg wPos : ℚ} (hn : 0 < wNeg) (hp : 0 < wPos) (row : ℚ × ℚ) :
    0 < pairWeight wNeg wPos row := by
  unfold pairWeight weightAbs
  rcases svmClass row.1 with _ | _
  · simpa [abs_of_pos hn] using hn
  · simpa [abs_of_pos hp] using hp

lemma pairErrorScore_nonneg (wNeg wPos : ℚ) (row : ℚ × ℚ) : 0 ≤ pairErrorScore wNeg wPos row := by
  unfold pairErrorScore
  split
  · exact pairWeight_nonneg wNeg wPos row
  · exact le_refl 0

lemma pairErrorScore_le_pairWeight (wNeg wPos : ℚ) (row : ℚ × ℚ) :
    pairErrorScore wNeg wPos row ≤ pairWeight wNeg wPos row := by
  unfold pairErrorScore
  split
  · exact le_refl _
  · exact pairWeight_nonneg wNeg wPos row

lemma dTotalErrorScore_nonneg (labels test_labels : List ℚ) (wNeg wPos : ℚ) :
    0 ≤ dTotalErrorScore labels test_labels wNeg wPos :=
  List.sum_nonneg (by
    intro x hx
    obtain ⟨row, _, hrow⟩ := List.mem_map.mp hx
    exact hrow ▸ pairErrorScore_nonneg wNeg wPos row)

lemma dTotalScore_nonneg (labels test_labels : List ℚ) (wNeg wPos : ℚ) :
    0 ≤ dTotalScore labels test_labels wNeg wPos :=
  List.sum_nonneg (by
    intro x hx
    obtain ⟨row, _, hrow⟩ := List.mem_map.mp hx
    exact hrow ▸ pairWeight_nonneg wNeg wPos row)

lemma dTotalErrorScore_le_dTotalScore (labels test_labels : List ℚ) (wNeg wPos : ℚ) :
    dTotalErrorScore labels test_labels wNeg wPos ≤ dTotalScore labels test_labels wNeg wPos :=
  List.sum_le_sum (fun row _ => pairErrorScore_le_pairWeight wNeg wPos row)

lemma dTotalScore_pos {labels test_labels : List ℚ} {wNeg wPos : ℚ}
    (hne : labels.zip test_labels ≠ []) (hn : 0 < wNeg) (hp : 0 < wPos) :
    0 < dTotalScore labels test_labels wNeg wPos := by
  obtain ⟨row, rest, heq⟩ := List.exists_cons_of_ne_nil hne
  unfold dTotalScore
  rw [heq, List.map_cons, List.sum_cons]
  have h1 : 0 < pairWeight wNeg wPos row := pairWeight_pos hn hp row
  have h2 : 0 ≤ (rest.map (pairWeight wNeg wPos)).sum :=
    List.sum_nonneg (by
      intro x hx
      obtain ⟨r, _, hr⟩ := List.mem_map.mp hx
      exact hr ▸ pairWeight_nonneg wNeg wPos r)
  linarith

/-- C4 (counterexample): with unit class weights, ground truth `[1, 1]` and
raw scores `[1, -1]`, the weighted error equals exactly half the total
weight; the claim's flip condition "error exceeds half" is false, yet the
code sets `dSignCorrection = -1`. -/
theorem totalSuccessRate_sign_counterexample :
    dTotalErrorScore [1, 1] [1, -1] 1 1 = 1 ∧
    dTotalScore [1, 1] [1, -1] 1 1 = 2 ∧
    ¬ (dTotalErrorScore [1, 1] [1, -1] 1 1 > 1/2 * dTotalScore [1, 1] [1, -1] 1 1) ∧
    (computeTotalSuccessRate [1, 1] [1, -1] 1 1).2 = -1 := by
  norm_num [computeTotalSuccessRate, dTotalScore, dTotalErrorScore, pairWeight,
    pairErrorScore, weightAbs, svmClass, List.zip]

/-- C4 (amended): `computeTotalSuccessRate` sets `dSignCorrection` to `-1`
exactly when the weighted error is at least (not strictly greater than) half
of the total weight, and to `+1` otherwise; in the flipped case the returned
rate is the weighted-error fraction, in the unflipped case it is
`(total - error) / total`. -/
theorem totalSuccessRate_sign_amended (labels test_labels : List ℚ) (wNeg wPos : ℚ) :
    ((computeTotalSuccessRate labels test_labels wNeg wPos).2 = -1 ↔
      1/2 * dTotalScore labels test_labels wNeg wPos ≤ dTotalErrorScore labels test_labels wNeg wPos) ∧
    (1/2 * dTotalScore labels test_labels wNeg wPos ≤ dTotalErrorScore labels test_labels wNeg wPos →
      (computeTotalSuccessRate labels test_labels wNeg wPos).1 =
        dTotalErrorScore labels test_labels wNeg wPos / dTotalScore labels test_labels wNeg wPos) ∧
    (dTotalErrorScore labels test_labels wNeg wPos < 1/2 * dTotalScore labels test_labels wNeg wPos →
      (computeTotalSuccessRate labels test_labels wNeg wPos).2 = 1 ∧
      (computeTotalSuccessRate labels test_labels wNeg wPos).1 =
        (dTotalScore labels test_labels wNeg wPos - dTotalErrorScore labels test_labels wNeg wPos) /
          dTotalScore labels test_labels wNeg wPos) := by
  by_cases h : dTotalErrorScore labels test_labels wNeg wPos <
      1/2 * dTotalScore labels test_labels wNeg wPos
  · refine ⟨?_, ?_, ?_⟩
    · rw [computeTotalSuccessRate, if_pos h]
      exact iff_of_false (by norm_num) (not_le.mpr h)
    · intro hle
      exact absurd hle (not_le.mpr h)
    · intro _
      rw [computeTotalSuccessRate, if_pos h]
      exact ⟨rfl, rfl⟩
  · refine ⟨?_, ?_, ?_⟩
    · rw [computeTotalSuccessRate, if_neg h]
      exact iff_of_true rfl (not_lt.mp h)
    · intro _
      rw [computeTotalSuccessRate, if_neg h]
    · intro hlt
      exact absurd hlt h

/-- Witness for `totalSuccessRate_sign_amended`: one correctly classified
example gives zero weighted error, sign `+1` and rate `1`. -/
theorem totalSuccessRate_sign_amended_witness :
    (computeTotalSuccessRate [1] [1] 1 1).2 = 1 ∧
    (computeTotalSuccessRate [1] [1] 1 1).1 =
      (dTotalScore [1] [1] 1 1 - dTotalErrorScore [1] [1] 1 1) / dTotalScore [1] [1] 1 1 :=
  (totalSuccessRate_sign_amended [1] [1] 1 1).2.2
    (by norm_num [dTotalScore, dTotalErrorScore, pairWeight, pairErrorScore, weightAbs,
      svmClass, List.zip])

lemma classExamples_nonneg (labels test_labels : List ℚ) (bLabel : Bool) :
    0 ≤ classExamples labels test_labels bLabel :=
  List.sum_nonneg (by
    intro x hx
    obtain ⟨row, _, hrow⟩ := List.mem_map.mp hx
    rw [← hrow]
    split <;> norm_num)

lemma classErrors_nonneg (labels test_labels : List ℚ) (dSignCorrection : ℚ) (bLabel : Bool) :
    0 ≤ classErrors labels test_labels dSignCorrection bLabel :=
  List.sum_nonneg (by
    intro x hx
    obtain ⟨row, _, hrow⟩ := List.mem_map.mp hx
    rw [← hrow]
    split <;> norm_num)

lemma classErrors_le_classExamples (labels test_labels : List ℚ) (dSignCorrection : ℚ)
    (bLabel : Bool) :
    classErrors labels test_labels dSignCorrection bLabel ≤
      classExamples labels test_labels bLabel := by
  refine List.sum_le_sum (fun row _ => ?_)
  rcases Decidable.em (svmClass row.1 = bLabel ∧ svmClass (dSignCorrection * row.2) ≠ bLabel)
    with hC | hC
  · rw [if_pos hC, if_pos hC.1]
  · rw [if_neg hC]
    split <;> norm_num

lemma classExamples_pos {labels test_labels : List ℚ} {bLabel : Bool}
    (h : ∃ row ∈ labels.zip test_labels, svmClass row.1 = bLabel) :
    0 < classExamples labels test_labels bLabel := by
  obtain ⟨row, hmem, hcls⟩ := h
  have hle : (fun r : ℚ × ℚ => if svmClass r.1 = bLabel then (1:ℚ) else 0) row ≤
      classExamples labels test_labels bLabel := by
    refine List.single_le_sum (by
      intro x hx
      obtain ⟨r, _, hr⟩ := List.mem_map.mp hx
      rw [← hr]
      split <;> norm_num) _ (List.mem_map_of_mem _ hmem)
  have h1 : (1:ℚ) ≤ classExamples labels test_labels bLabel := by simpa [hcls] using hle
  linarith

lemma classSuccessRate_bounds (dSignCorrection : ℚ) {labels test_labels : List ℚ} {bLabel : Bool}
    (h : ∃ row ∈ labels.zip test_labels, svmClass row.1 = bLabel) :
    0 ≤ classSuccessRate labels test_labels dSignCorrection bLabel ∧
      classSuccessRate labels test_labels dSignCorrection bLabel ≤ 1 := by
  have hex := classExamples_pos h
  have herr0 := classErrors_nonneg labels test_labels dSignCorrection bLabel
  have herr1 := classErrors_le_classExamples labels test_labels dSignCorrection bLabel
  unfold classSuccessRate
  constructor
  · exact div_nonneg (by linarith) (le_of_lt hex)
  · rw [div_le_one hex]
    linarith

/-- C5: for any validation set (nonempty, with positive class weights), the
total weighted success rate lies in `[0, 1]`; and when each class has at
least one validation example, the balanced success rate lies in `[0, 1]`. -/
theorem scoring_rates_bounded (labels test_labels : List ℚ) (wNeg wPos dSignCorrection : ℚ)
    (hn : 0 < wNeg) (hp : 0 < wPos) :
    (labels.zip test_labels ≠ [] →
      0 ≤ (computeTotalSuccessRate labels test_labels wNeg wPos).1 ∧
      (computeTotalSuccessRate labels test_labels wNeg wPos).1 ≤ 1) ∧
    ((∃ row ∈ labels.zip test_labels, svmClass row.1 = false) →
      (∃ row ∈ labels.zip test_labels, svmClass row.1 = true) →
      0 ≤ computeBSR labels test_labels dSignCorrection ∧
      computeBSR labels test_labels dSignCorrection ≤ 1) := by
  constructor
  · intro hne
    have htot := dTotalScore_pos hne hn hp
    have herr0 := dTotalErrorScore_nonneg labels test_labels wNeg wPos
    have herr1 := dTotalErrorScore_le_dTotalScore labels test_labels wNeg wPos
    rw [computeTotalSuccessRate]
    split
    · constructor
      · exact div_nonneg (by linarith) (le_of_lt htot)
      · rw [div_le_one htot]; linarith
    · constructor
      · exact div_nonneg herr0 (le_of_lt htot)
      · rw [div_le_one htot]; linarith
  · intro hfalse htrue
    have h0 := classSuccessRate_bounds dSignCorrection hfalse
    have h1 := classSuccessRate_bounds dSignCorrection htrue
    unfold computeBSR
    constructor
    · linarith [h0.1, h1.1]
    · linarith [h0.2, h1.2]

/-- Witness for `scoring_rates_bounded`: one negative and one positive
example, unit weights. -/
theorem scoring_rates_bounded_witness :
    (0 ≤ (computeTotalSuccessRate [-1, 1] [1, 1] 1 1).1 ∧
      (computeTotalSuccessRate [-1, 1] [1, 1] 1 1).1 ≤ 1) ∧
    (0 ≤ computeBSR [-1, 1] [1, 1] 1 ∧ computeBSR [-1, 1] [1, 1] 1 ≤ 1) := by
  have h := scoring_rates_bounded [-1, 1] [1, 1] 1 1 1 (by norm_num) (by norm_num)
  refine ⟨h.1 (by simp [List.zip]), h.2 ⟨(-1, 1), by simp [List.zip, svmClass], by norm_num [svmClass]⟩
    ⟨(1, 1), by simp [List.zip], by norm_num [svmClass]⟩⟩

lemma predictAll_error {predict : Feature → Except Unit ℚ} :
    ∀ {fs : List Feature}, (∃ f ∈ fs, ∃ e, predict f = Except.error e) →
      ∃ e, predictAll predict fs = Except.error e := by
  intro fs
  induction fs with
  | nil =>
    rintro ⟨f, hf, _⟩
    exact absurd hf (List.not_mem_nil f)
  | cons a t ih =>
    rintro ⟨f, hf, e, he⟩
    rcases List.mem_cons.mp hf with rfl | hft
    · exact ⟨e, by simp [predictAll, he]⟩
    · cases hpa : predict a with
      | error e2 => exact ⟨e2, by simp [predictAll, hpa]⟩
      | ok v =>
        obtain ⟨e3, h3⟩ := ih ⟨f, hft, e, he⟩
        exact ⟨e3, by simp [predictAll, hpa, h3]⟩

/-- C3: when the external classifier engine fails (throws) on some example
of the fold's validation partition, `trainAndValidate` scores the fold `0`
instead of propagating the failure (it returns a total score, so the
hyperparameter search continues). -/
theorem trainAndValidate_engine_failure (svm : TrainedSVM) (validateFeatures : List Feature)
    (validateLabels : List ℚ) (wNeg wPos : ℚ)
    (hfail : ∃ f ∈ validateFeatures, ∃ e, svm.predictRaw f = Except.error e) :
    trainAndValidate svm validateFeatures validateLabels wNeg wPos = 0 := by
  obtain ⟨e, he⟩ := predictAll_error hfail
  unfold trainAndValidate propCorrect
  rw [he]

/-- Witness for `trainAndValidate_engine_failure`: an engine that always
throws scores its fold `0`. -/
theorem trainAndValidate_engine_failure_witness :
    trainAndValidate ⟨fun _ => Except.error ()⟩ [[0]] [1] 1 1 = 0 :=
  trainAndValidate_engine_failure ⟨fun _ => Except.error ()⟩ [[0]] [1] 1 1
    ⟨[0], by simp, (), rfl⟩

/-- C10: whenever a training run reaches persistence (`some`), the persisted
booster cascade is empty — the boosting branch is statically disabled by the
hardcoded `bUseBoosting = false` — and the runtime cascade filter built from
the persisted (empty) cascade accepts every feature vector. -/
theorem training_cascade_empty (fuel : ℕ) (data : CLabelledFeatures)
    (bs : List CBoosterState) (hsaved : destructorSavedBoosterStates fuel data = some bs) :
    bs = [] ∧ ∀ feature : Feature, keepAllFilters bs feature = true := by
  unfold destructorSavedBoosterStates at hsaved
  by_cases habort : data.pos.length < 20 ∨ data.neg.length < 20
  · rw [if_pos habort] at hsaved
    exact Option.noConfusion hsaved
  · rw [if_neg habort] at hsaved
    have hb : bUseBoosting = false := rfl
    rw [hb] at hsaved
    simp only [Bool.false_eq_true, if_false] at hsaved
    have hbs : bs = [] := (Option.some.inj hsaved).symm
    subst hbs
    exact ⟨rfl, fun _ => rfl⟩

/-- Witness for `training_cascade_empty`: twenty examples per class reach
persistence with the empty cascade, which keeps an arbitrary concrete
feature. -/
theorem training_cascade_empty_witness :
    ([] : List CBoosterState) = [] ∧ keepAllFilters [] [5] = true := by
  have h := training_cascade_empty 0 ⟨List.replicate 20 [0], List.replicate 20 [0]⟩ []
    (by simp [destructorSavedBoosterStates, bUseBoosting])
  exact ⟨h.1, h.2 [5]⟩

/-- C1: `classify` returns the fixed `-1` whenever some booster stage of the
cascade rejects the feature, and the engine is not consulted (the result is
the same for every `svmPredict`); otherwise, when `dSignCorrection = 0` it
returns the fixed `1`, again independently of the engine; otherwise it
returns `dSignCorrection * (raw prediction on the normalised, subset-projected
feature - dClassificationBoundary)`. -/
theorem classify_cases (aBoosterStates : List CBoosterState) (sel : CFeatureSubsetSelecter)
    (dSignCorrection dClassificationBoundary : ℚ) (svmPredict : List ℚ → ℚ) (feature : Feature) :
    (keepAllFilters aBoosterStates feature = false →
      classify aBoosterStates sel dSignCorrection dClassificationBoundary svmPredict feature = -1) ∧
    (keepAllFilters aBoosterStates feature = true → dSignCorrection = 0 →
      classify aBoosterStates sel dSignCorrection dClassificationBoundary svmPredict feature = 1) ∧
    (keepAllFilters aBoosterStates feature = true → dSignCorrection ≠ 0 →
      classify aBoosterStates sel dSignCorrection dClassificationBoundary svmPredict feature =
        dSignCorrection * (svmPredict (selectAndNormalise sel feature) - dClassificationBoundary)) := by
  refine ⟨fun hrej => ?_, fun hkeep hzero => ?_, fun hkeep hnz => ?_⟩
  · simp [classify, hrej]
  · simp [classify, hkeep, hzero]
  · simp [classify, hkeep, hnz]

/-- Witness for `classify_cases` at concrete inputs exercising all three
branches. -/
theorem classify_cases_witness :
    classify [⟨0, 5, true⟩] ⟨[0], [0], [1]⟩ 1 0 (fun _ => 3) [7] = -1 ∧
    classify [⟨0, 5, true⟩] ⟨[0], [0], [1]⟩ 0 0 (fun _ => 3) [2] = 1 ∧
    classify [⟨0, 5, true⟩] ⟨[0], [0], [1]⟩ 1 (1/4) (fun _ => 3) [2] = 1 * (3 - 1/4) := by
  refine ⟨(classify_cases [⟨0, 5, true⟩] ⟨[0], [0], [1]⟩ 1 0 (fun _ => 3) [7]).1 (by decide),
    (classify_cases [⟨0, 5, true⟩] ⟨[0], [0], [1]⟩ 0 0 (fun _ => 3) [2]).2.1 (by decide) rfl,
    (classify_cases [⟨0, 5, true⟩] ⟨[0], [0], [1]⟩ 1 (1/4) (fun _ => 3) [2]).2.2 (by decide) (by norm_num)⟩

/-- C2: `probability` fails fatally (returns `none`) whenever the stored
sigmoid parameters violate `0 ≤ dThreshLo < dThreshHi ≤ 1` or `dScale ≤ 0`;
and whenever it returns a probability (for any score, i.e. any
`e = exp(-dScale*(score-dShift)) > 0`) that probability lies in the closed
interval `[dThreshLo, dThreshHi]`. -/
theorem probability_valid_range (p : CSigmoidParams) (e : ℚ) :
    (¬ (0 ≤ p.dThreshLo ∧ p.dThreshLo < p.dThreshHi ∧ p.dThreshHi ≤ 1 ∧ 0 < p.dScale) →
      probability p e = none) ∧
    (0 < e → ∀ q : ℚ, probability p e = some q → p.dThreshLo ≤ q ∧ q ≤ p.dThreshHi) := by
  constructor
  · intro hbad
    have hval : sigmoidValidate p = false := by
      cases h : sigmoidValidate p
      · rfl
      · exfalso
        unfold sigmoidValidate at h
        have hh := of_decide_eq_true h
        exact hbad ⟨hh.1, hh.2.2.2.2.1, hh.2.2.2.1, hh.2.2.2.2.2⟩
    simp [probability, hval]
  · intro he q hq
    unfold probability at hq
    by_cases hval : sigmoidValidate p = true
    · rw [if_pos hval] at hq
      unfold sigmoidValidate at hval
      have h := of_decide_eq_true hval
      have hlo1 : (0:ℚ) < 1 + e := by linarith
      have hs0 : 0 < logisticSigmoidE e := by
        unfold logisticSigmoidE; positivity
      have hs1 : logisticSigmoidE e < 1 := by
        unfold logisticSigmoidE
        rw [div_lt_one hlo1]; linarith
      have hgap : (0:ℚ) < p.dThreshHi - p.dThreshLo := by
        have := h.2.2.2.2.1; linarith
      have hlow : p.dThreshLo ≤ sigmoidProb p e := by
        unfold sigmoidProb; nlinarith
      have hhigh : sigmoidProb p e ≤ p.dThreshHi := by
        unfold sigmoidProb; nlinarith
      have hpr : 0 ≤ sigmoidProb p e ∧ sigmoidProb p e ≤ 1 :=
        ⟨le_trans h.1 hlow, le_trans hhigh h.2.2.2.1⟩
      rw [if_pos hpr] at hq
      have hqq := Option.some.inj hq
      exact hqq ▸ ⟨hlow, hhigh⟩
    · rw [if_neg hval] at hq
      exact Option.noConfusion hq

/-- Witness for `probability_valid_range`: the invalid-parameter branch at
`dScale = 0` and the in-range branch at the default parameters. -/
theorem probability_valid_range_witness :
    probability ⟨1/10, 9/10, 0, 0⟩ 1 = none ∧
    ((⟨1/10, 9/10, 0, 1⟩ : CSigmoidParams).dThreshLo ≤ 1/2 ∧
      (1/2 : ℚ) ≤ (⟨1/10, 9/10, 0, 1⟩ : CSigmoidParams).dThreshHi) := by
  constructor
  · exact (probability_valid_range ⟨1/10, 9/10, 0, 0⟩ 1).1 (by norm_num)
  · exact (probability_valid_range ⟨1/10, 9/10, 0, 1⟩ 1).2 (by norm_num) (1/2)
      (by norm_num [probability, sigmoidValidate, sigmoidProb, logisticSigmoidE])

/-- C9: for every feature index, the normalising coefficients are the mean
over both label classes combined and `scale = 1/SD` — except that a
non-positive standard deviation (in particular `SD = 0`) yields `scale = 1`
— so every computed scale coefficient is positive, hence non-zero (and
finite, as every rational is). -/
theorem findNormalisingCoeffs_scale (sqrtFn : ℚ → ℚ) (data : CLabelledFeatures) (nFeature : ℕ) :
    (findNormalisingCoeffsAt sqrtFn data nFeature).1 = listMean (featureColumn data nFeature) ∧
    (0 < (meanSD sqrtFn (featureColumn data nFeature)).2 →
      (findNormalisingCoeffsAt sqrtFn data nFeature).2 =
        1 / (meanSD sqrtFn (featureColumn data nFeature)).2) ∧
    ((meanSD sqrtFn (featureColumn data nFeature)).2 = 0 →
      (findNormalisingCoeffsAt sqrtFn data nFeature).2 = 1) ∧
    0 < (findNormalisingCoeffsAt sqrtFn data nFeature).2 ∧
    (findNormalisingCoeffsAt sqrtFn data nFeature).2 ≠ 0 := by
  unfold findNormalisingCoeffsAt
  by_cases h : (meanSD sqrtFn (featureColumn data nFeature)).2 > 0
  · rw [if_pos h]
    refine ⟨rfl, fun _ => rfl, fun h0 => absurd h (by rw [h0]; exact lt_irrefl 0), ?_, ?_⟩
    · exact one_div_pos.mpr h
    · exact ne_of_gt (one_div_pos.mpr h)
  · rw [if_neg h]
    exact ⟨rfl, fun hpos => absurd hpos h, fun _ => rfl, one_pos, one_ne_zero⟩

/-- Witness for `findNormalisingCoeffs_scale`: column `[1, 3]` has variance
`1`, so (with the identity standing in for the square root) the scale is
`1/SD`. -/
theorem findNormalisingCoeffs_scale_witness :
    (findNormalisingCoeffsAt (fun x => x) ⟨[[1]], [[3]]⟩ 0).2 =
      1 / (meanSD (fun x => x) (featureColumn ⟨[[1]], [[3]]⟩ 0)).2 :=
  (findNormalisingCoeffs_scale (fun x => x) ⟨[[1]], [[3]]⟩ 0).2.1
    (by norm_num [meanSD, listVariance, listMean, featureColumn])

lemma updateNearest_dP1_le_acc (dTargetPrecision : ℚ) (s : TwoNearest) (row : ℚ × ℚ) :
    |(updateNearest dTargetPrecision s row).dP1 - dTargetPrecision| ≤
      |s.dP1 - dTargetPrecision| := by
  unfold updateNearest
  split
  · rename_i h
    exact le_of_lt h
  · split
    · exact le_refl _
    · exact le_refl _

lemma updateNearest_dP1_le_row (dTargetPrecision : ℚ) (s : TwoNearest) (row : ℚ × ℚ) :
    |(updateNearest dTargetPrecision s row).dP1 - dTargetPrecision| ≤
      |row.2 - dTargetPrecision| := by
  unfold updateNearest
  split
  · exact le_refl _
  · rename_i h
    split
    · exact not_lt.mp h
    · exact not_lt.mp h

lemma selectNearest_foldl (dTargetPrecision : ℚ) :
    ∀ (rows : List (ℚ × ℚ)) (acc : TwoNearest),
      |(rows.foldl (updateNearest dTargetPrecision) acc).dP1 - dTargetPrecision| ≤
        |acc.dP1 - dTargetPrecision| ∧
      ∀ row ∈ rows,
        |(rows.foldl (updateNearest dTargetPrecision) acc).dP1 - dTargetPrecision| ≤
          |row.2 - dTargetPrecision| := by
  intro rows
  induction rows with
  | nil =>
    intro acc
    exact ⟨le_refl _, fun row h => absurd h (List.not_mem_nil row)⟩
  | cons a rs ih =>
    intro acc
    simp only [List.foldl_cons]
    have h := ih (updateNearest dTargetPrecision acc a)
    refine ⟨le_trans h.1 (updateNearest_dP1_le_acc dTargetPrecision acc a), ?_⟩
    intro row hrow
    rcases List.mem_cons.mp hrow with rfl | hr
    · exact le_trans h.1 (updateNearest_dP1_le_row dTargetPrecision acc row)
    · exact h.2 row hr

lemma updateNearest_ord (dTargetPrecision : ℚ) (s : TwoNearest) (row : ℚ × ℚ)
    (hd : |s.dP1 - dTargetPrecision| ≤ |s.dP2 - dTargetPrecision|) :
    |(updateNearest dTargetPrecision s row).dP1 - dTargetPrecision| ≤
      |(updateNearest dTargetPrecision s row).dP2 - dTargetPrecision| := by
  unfold updateNearest
  split
  · rename_i h
    exact le_of_lt h
  · rename_i h
    split
    · exact not_lt.mp h
    · exact hd

lemma updateNearest_carry (dTargetPrecision : ℚ) (s : TwoNearest) (row : ℚ × ℚ) (x : ℚ)
    (hd : |s.dP1 - dTargetPrecision| ≤ |s.dP2 - dTargetPrecision|)
    (h : |s.dP2 - dTargetPrecision| ≤ |x - dTargetPrecision| ∨ x = s.dP1) :
    |(updateNearest dTargetPrecision s row).dP2 - dTargetPrecision| ≤ |x - dTargetPrecision| ∨
      x = (updateNearest dTargetPrecision s row).dP1 := by
  unfold updateNearest
  split
  · rcases h with h2 | h2
    · exact Or.inl (le_trans hd h2)
    · exact Or.inl (by rw [h2])
  · rename_i h1
    split
    · rename_i h2
      rcases h with h3 | h3
      · exact Or.inl (le_trans (le_of_lt h2) h3)
      · exact Or.inr h3
    · exact h

lemma updateNearest_new (dTargetPrecision : ℚ) (s : TwoNearest) (row : ℚ × ℚ) :
    |(updateNearest dTargetPrecision s row).dP2 - dTargetPrecision| ≤
      |row.2 - dTargetPrecision| ∨
      row.2 = (updateNearest dTargetPrecision s row).dP1 := by
  unfold updateNearest
  split
  · exact Or.inr rfl
  · split
    · exact Or.inl (le_refl _)
    · rename_i h1 h2
      exact Or.inl (not_lt.mp h2)

lemma selectNearest_foldl_carry (dTargetPrecision x : ℚ) :
    ∀ (rows : List (ℚ × ℚ)) (acc : TwoNearest),
      |acc.dP1 - dTargetPrecision| ≤ |acc.dP2 - dTargetPrecision| →
      (|acc.dP2 - dTargetPrecision| ≤ |x - dTargetPrecision| ∨ x = acc.dP1) →
      (|(rows.foldl (updateNearest dTargetPrecision) acc).dP2 - dTargetPrecision| ≤
          |x - dTargetPrecision| ∨
        x = (rows.foldl (updateNearest dTargetPrecision) acc).dP1) := by
  intro rows
  induction rows with
  | nil =>
    intro acc _ h
    exact h
  | cons a rs ih =>
    intro acc hd h
    simp only [List.foldl_cons]
    exact ih (updateNearest dTargetPrecision acc a)
      (updateNearest_ord dTargetPrecision acc a hd)
      (updateNearest_carry dTargetPrecision acc a x hd h)

lemma selectNearest_foldl_second (dTargetPrecision : ℚ) :
    ∀ (rows : List (ℚ × ℚ)) (acc : TwoNearest),
      |acc.dP1 - dTargetPrecision| ≤ |acc.dP2 - dTargetPrecision| →
      ∀ row ∈ rows,
        |(rows.foldl (updateNearest dTargetPrecision) acc).dP2 - dTargetPrecision| ≤
            |row.2 - dTargetPrecision| ∨
          row.2 = (rows.foldl (updateNearest dTargetPrecision) acc).dP1 := by
  intro rows
  induction rows with
  | nil =>
    intro acc _ row h
    exact absurd h (List.not_mem_nil row)
  | cons a rs ih =>
    intro acc hd row hrow
    simp only [List.foldl_cons]
    rcases List.mem_cons.mp hrow with rfl | hr
    · exact selectNearest_foldl_carry dTargetPrecision row.2 rs
        (updateNearest dTargetPrecision acc row)
        (updateNearest_ord dTargetPrecision acc row hd)
        (updateNearest_new dTargetPrecision acc row)
    · exact ih (updateNearest dTargetPrecision acc a)
        (updateNearest_ord dTargetPrecision acc a hd) row hr

/-- C6: the boundary is derived by straight-line interpolation between the
two stored samples whose precisions are nearest the target: the selected
anchor `dP1` minimises the distance to the target over the whole lookup,
and every sample is either no nearer than the second anchor `dP2` or
carries the `dP1` precision itself; in particular, for target precision
`0.9` against the lookup `[(-1, 0.5), (0, 0.8), (1, 0.95)]` the derived
boundary is `2/3`, strictly between `0` and `1`. -/
theorem interpPrecisionBoundary_nearest :
    (∀ (dTargetPrecision : ℚ) (boundaries precisions : List ℚ),
      ∀ row ∈ boundaries.zip precisions,
        |(selectNearestTwo dTargetPrecision boundaries precisions).dP1 - dTargetPrecision| ≤
          |row.2 - dTargetPrecision|) ∧
    (∀ (dTargetPrecision : ℚ) (boundaries precisions : List ℚ),
      ∀ row ∈ boundaries.zip precisions,
        |(selectNearestTwo dTargetPrecision boundaries precisions).dP2 - dTargetPrecision| ≤
            |row.2 - dTargetPrecision| ∨
          row.2 = (selectNearestTwo dTargetPrecision boundaries precisions).dP1) ∧
    interpPrecisionBoundary (9/10) [-1, 0, 1] [1/2, 4/5, 19/20] = some (2/3) ∧
    ((0:ℚ) < 2/3 ∧ (2/3:ℚ) < 1) := by
  refine ⟨?_, ?_, ?_, by norm_num⟩
  · intro t bs ps row hrow
    exact (selectNearest_foldl t (bs.zip ps) ⟨0, HUGEQ, 0, HUGEQ⟩).2 row hrow
  · intro t bs ps row hrow
    exact selectNearest_foldl_second t (bs.zip ps) ⟨0, HUGEQ, 0, HUGEQ⟩ (le_refl _) row hrow
  · norm_num [interpPrecisionBoundary, interpIntercept, interpSlope, selectNearestTwo,
      updateNearest, HUGEQ, List.zip, abs_of_nonneg, abs_of_nonpos]

lemma findBoosterState_default {data : CLabelledFeatures} {nIdx : ℕ} {bRejectAbove : Bool}
    (h : (findBoosterState data nIdx bRejectAbove).2.nFeatureIdx = -1) :
    findBoosterState data nIdx bRejectAbove = (0, defaultBoosterState) := by
  unfold findBoosterState at h ⊢
  by_cases hc : dPropOfNegativeExamplesRemoved data nIdx bRejectAbove < 1/10 ∨
      dNumRemovedBelow data nIdx bRejectAbove < 150
  · rw [if_pos hc]
  · rw [if_neg hc] at h
    exfalso
    have hcast : ((nIdx : Int)) = -1 := h
    omega

lemma foldl_best_mem (l : List (ℚ × CBoosterState)) (init : ℚ × CBoosterState) :
    l.foldl (fun best cand => if cand.1 > best.1 then cand else best) init = init ∨
    l.foldl (fun best cand => if cand.1 > best.1 then cand else best) init ∈ l := by
  induction l generalizing init with
  | nil => exact Or.inl rfl
  | cons a t ih =>
    simp only [List.foldl_cons]
    rcases ih (if a.1 > init.1 then a else init) with h | h
    · rw [h]
      by_cases ha : a.1 > init.1
      · rw [if_pos ha]
        exact Or.inr (List.mem_cons_self a t)
      · rw [if_neg ha]
        exact Or.inl rfl
    · exact Or.inr (List.mem_cons_of_mem a h)

lemma foldl_best_const (l : List (ℚ × CBoosterState))
    (h : ∀ c ∈ l, c = ((0:ℚ), defaultBoosterState)) :
    l.foldl (fun best cand => if cand.1 > best.1 then cand else best)
      ((0:ℚ), defaultBoosterState) = ((0:ℚ), defaultBoosterState) := by
  induction l with
  | nil => rfl
  | cons a t ih =>
    simp only [List.foldl_cons]
    rw [h a (List.mem_cons_self a t)]
    rw [if_neg (lt_irrefl (0:ℚ))]
    exact ih (fun c hc => h c (List.mem_cons_of_mem a hc))

/-- C7: a `(feature index, polarity)` candidate survives `findBoosterState`
(feature index different from the rejected sentinel `-1`) only if it removes
at least `150` negatives absolutely and at least the fraction `1/10` of all
current negatives; the winning stage of a round is one of the scanned
candidates; and when every candidate of a round is rejected, the cascade
search adds no rule and terminates at once. -/
theorem booster_acceptance_bound (data : CLabelledFeatures) :
    (∀ (nIdx : ℕ) (bRejectAbove : Bool),
      (findBoosterState data nIdx bRejectAbove).2.nFeatureIdx ≠ -1 →
        150 ≤ dNumRemovedBelow data nIdx bRejectAbove ∧
        1/10 ≤ dPropOfNegativeExamplesRemoved data nIdx bRejectAbove) ∧
    ((findBestBoosterState data).2.nFeatureIdx ≠ -1 →
      ∃ (nIdx : ℕ) (bRejectAbove : Bool), nIdx < featureDims data ∧
        findBestBoosterState data = findBoosterState data nIdx bRejectAbove) ∧
    ((∀ nIdx, nIdx < featureDims data → ∀ bRejectAbove : Bool,
        (findBoosterState data nIdx bRejectAbove).2.nFeatureIdx = -1) →
      ∀ fuel : ℕ, findBoosterStatesAux (fuel + 1) data = Except.ok ([], data)) := by
  refine ⟨?_, ?_, ?_⟩
  · intro nIdx bRejectAbove h
    unfold findBoosterState at h
    by_cases hc : dPropOfNegativeExamplesRemoved data nIdx bRejectAbove < 1/10 ∨
        dNumRemovedBelow data nIdx bRejectAbove < 150
    · rw [if_pos hc] at h
      exact absurd rfl h
    · push_neg at hc
      exact ⟨hc.2, hc.1⟩
  · intro hne
    have hmem : findBestBoosterState data = ((0:ℚ), defaultBoosterState) ∨
        findBestBoosterState data ∈ boosterCandidates data :=
      foldl_best_mem (boosterCandidates data) ((0:ℚ), defaultBoosterState)
    rcases hmem with h | h
    · exfalso
      rw [h] at hne
      exact hne rfl
    · unfold boosterCandidates at h
      rcases List.mem_append.mp h with h1 | h1
      · obtain ⟨nIdx, hrange, heq⟩ := List.mem_map.mp h1
        exact ⟨nIdx, false, List.mem_range.mp hrange, heq.symm⟩
      · obtain ⟨nIdx, hrange, heq⟩ := List.mem_map.mp h1
        exact ⟨nIdx, true, List.mem_range.mp hrange, heq.symm⟩
  · intro hall fuel
    have hconst : ∀ c ∈ boosterCandidates data, c = ((0:ℚ), defaultBoosterState) := by
      intro c hc
      unfold boosterCandidates at hc
      rcases List.mem_append.mp hc with h1 | h1
      · obtain ⟨nIdx, hrange, heq⟩ := List.mem_map.mp h1
        rw [← heq]
        exact findBoosterState_default (hall nIdx (List.mem_range.mp hrange) false)
      · obtain ⟨nIdx, hrange, heq⟩ := List.mem_map.mp h1
        rw [← heq]
        exact findBoosterState_default (hall nIdx (List.mem_range.mp hrange) true)
    have hbest : findBestBoosterState data = ((0:ℚ), defaultBoosterState) :=
      foldl_best_const (boosterCandidates data) hconst
    rw [findBoosterStatesAux, hbest]
    norm_num [defaultBoosterState]

/-- C8: along any successful (non-aborted) run of the cascade construction,
every applied booster stage strictly decreases the negative-example count,
and no stage ever increases the positive-example count. -/
theorem cascade_monotonic (fuel : ℕ) (data : CLabelledFeatures)
    (out : List CBoosterState × CLabelledFeatures)
    (h : findBoosterStatesAux fuel data = Except.ok out) :
    negStrictlyDecreasingAlong data out.1 ∧ posNonIncreasingAlong data out.1 := by
  induction fuel generalizing data out with
  | zero =>
    rw [findBoosterStatesAux] at h
    exact Except.noConfusion h
  | succ n ih =>
    rw [findBoosterStatesAux] at h
    by_cases hbest : (findBestBoosterState data).2.nFeatureIdx < 0
    · rw [if_pos hbest] at h
      obtain ⟨rfl⟩ := Except.ok.inj h
      exact ⟨trivial, trivial⟩
    · rw [if_neg hbest] at h
      by_cases hge : (applyBoosterFilter (findBestBoosterState data).2 data).neg.length ≥
          data.neg.length
      · rw [if_pos hge] at h
        exact Except.noConfusion h
      · rw [if_neg hge] at h
        cases hrec : findBoosterStatesAux n (applyBoosterFilter (findBestBoosterState data).2 data) with
        | error e =>
          rw [hrec] at h
          exact Except.noConfusion h
        | ok p =>
          obtain ⟨rest, finalData⟩ := p
          rw [hrec] at h
          obtain ⟨rfl⟩ := Except.ok.inj h
          have chain := ih (applyBoosterFilter (findBestBoosterState data).2 data)
            (rest, finalData) hrec
          exact ⟨⟨lt_of_not_ge hge, chain.1⟩,
            ⟨List.length_filter_le _ _, chain.2⟩⟩

/-- Witness for `cascade_monotonic`: on a dataset of zero-dimensional
features no candidate exists, so one round of the search succeeds with the
empty cascade. -/
theorem cascade_monotonic_witness :
    negStrictlyDecreasingAlong ⟨[[]], [[]]⟩ [] ∧ posNonIncreasingAlong ⟨[[]], [[]]⟩ [] :=
  cascade_monotonic 1 ⟨[[]], [[]]⟩ ([], ⟨[[]], [[]]⟩)
    (by norm_num [findBoosterStatesAux, findBestBoosterState, boosterCandidates,
      featureDims, defaultBoosterState])
